import Mathlib

/-!
Shallow embedding of src/validation/geospatial/lpc_workflow.py.

Coordinates are modelled as exact rationals; point records carry an opaque
attribute payload that the router copies verbatim; the point-cloud and
raster byte payloads are modelled as the sequences of values the code
writes into them; the temporary-file system as a list of existing file
names.
-/

namespace Lpc

/-- Planar bounding box, the 4-tuples built by square_split and read back
by the mask loop of partition_las. -/
structure BBox where
  x_min : ℚ
  y_min : ℚ
  x_max : ℚ
  y_max : ℚ
deriving DecidableEq

/-- Failure modes observable on the code paths under verification.
zeroDivisionError, indexError and fileNotFoundError are the unhandled
Python exceptions the code actually raises; invalidArgument,
emptyPartitionSet and sourceReadError are the error kinds named by the
specification. -/
inductive Err where
  | zeroDivisionError
  | indexError
  | invalidArgument
  | emptyPartitionSet
  | sourceReadError
  | fileNotFoundError
deriving DecidableEq

/-- Cell built in the body of the double loop of square_split:
x_min_bound = x_size * i + x_min, y_min_bound = y_size * j + y_min,
x_max_bound = x_min_bound + x_size, y_max_bound = y_min_bound + y_size. -/
def squareCell (x_min y_min x_max y_max : ℚ) (n i j : ℕ) : BBox :=
  let x_size := (x_max - x_min) / (n : ℚ)
  let y_size := (y_max - y_min) / (n : ℚ)
  let x_min_bound := x_size * (i : ℚ) + x_min
  let y_min_bound := y_size * (j : ℚ) + y_min
  { x_min := x_min_bound, y_min := y_min_bound,
    x_max := x_min_bound + x_size, y_max := y_min_bound + y_size }

/-- The double loop of square_split for a positive split factor:
for i in range(n): for j in range(n): bounds.append(cell i j). -/
def square_split_pos (x_min y_min x_max y_max : ℚ) (n : ℕ) : List BBox :=
  (List.range n).flatMap
    (fun i => (List.range n).map (fun j => squareCell x_min y_min x_max y_max n i j))

/-- Embedding of square_split(x_min, y_min, x_max, y_max, square_splits).
The source first computes (x_max - x_min) / square_splits, which raises
ZeroDivisionError when square_splits is 0; for negative square_splits the
division succeeds and range(square_splits) is empty, so the function
returns an empty list without raising. The source performs no argument
validation. Int.toNat sends negative factors to 0, matching the empty
range. -/
def square_split (x_min y_min x_max y_max : ℚ) (square_splits : ℤ) :
    Except Err (List BBox) :=
  if square_splits = 0 then .error .zeroDivisionError
  else .ok (square_split_pos x_min y_min x_max y_max square_splits.toNat)

/-- One point record: the router inspects only x and y; every other field
of the source format is an opaque attribute payload copied verbatim,
modelled by a single natural number. -/
structure Point where
  x : ℚ
  y : ℚ
  attrs : ℕ
deriving DecidableEq

/-- The header fields of the LAS source that partition_las reads:
the four bounds (fed to square_split) and the total point count (used
only for the progress percentage printed as a side effect). -/
structure LasHeader where
  x_min : ℚ
  y_min : ℚ
  x_max : ℚ
  y_max : ℚ
  point_count : ℕ
deriving DecidableEq

/-- The membership mask of partition_las for one partition:
(x >= x_min) & (x <= x_max) & (y >= y_min) & (y <= y_max),
closed on both ends. -/
def inBounds (b : BBox) (p : Point) : Bool :=
  decide (b.x_min ≤ p.x) && decide (p.x ≤ b.x_max) &&
    decide (b.y_min ≤ p.y) && decide (p.y ≤ b.y_max)

/-- The inner loop of partition_las over one chunk, with the early stop:
for each partition in order, the masked subset points[mask] is written to
that partition (writing an empty subset models the skipped write under
if np.any(mask), which leaves the payload unchanged); point_piped
accumulates np.sum(mask); when point_piped == len(points) the loop
breaks, so every later partition receives nothing from this chunk.
Returns the list, parallel to the partition list, of the points written
for this chunk. -/
def chunkWrites (points : List Point) : List BBox → ℕ → List (List Point)
  | [], _ => []
  | b :: rest, point_piped =>
    let sub_points := points.filter (fun p => inBounds b p)
    let piped := point_piped + sub_points.length
    if piped = points.length then
      sub_points :: rest.map (fun _ => [])
    else
      sub_points :: chunkWrites points rest piped

/-- Reference routing of one chunk with no early stop: every partition
mask is evaluated on every point of the chunk and the masked subset is
written. -/
def chunkWritesFull (points : List Point) (bounds : List BBox) : List (List Point) :=
  bounds.map (fun b => points.filter (fun p => inBounds b p))

/-- One laspy writer: opened over an in-memory buffer with the original
file header (laspy.open(buff, mode=w, header=file.header)); buf is the
sequence of points written into its buffer, closes counts calls to
close(). -/
structure Writer where
  header : LasHeader
  buf : List Point
  closes : ℕ
deriving DecidableEq

/-- Writer freshly opened for one partition, with the source file header. -/
def openWriter (h : LasHeader) : Writer := ⟨h, [], 0⟩

/-- writer.close() in the finally block. -/
def closeWriter (w : Writer) : Writer := { w with closes := w.closes + 1 }

/-- One iteration of the chunk loop: the per-partition writes of this
chunk are appended to the corresponding writer buffers. -/
def applyChunk (bounds : List BBox) (ws : List Writer) (points : List Point) :
    List Writer :=
  List.zipWith (fun w sub => { w with buf := w.buf ++ sub }) ws
    (chunkWrites points bounds 0)

/-- The try block of partition_las: file.chunk_iterator is consumed in
order; a none entry models a malformed or truncated read, which raises
and aborts the loop with the writers in their partially-written state. -/
def routeLoop (bounds : List BBox) : List Writer → List (Option (List Point)) →
    Option Err × List Writer
  | ws, [] => (none, ws)
  | ws, none :: _ => (some .sourceReadError, ws)
  | ws, some c :: rest => routeLoop bounds (applyChunk bounds ws c) rest

/-- Contents of one returned buffer: buf.getvalue() of a buffer that a
laspy writer opened with a given header has written points into. -/
structure Payload where
  header : LasHeader
  pts : List Point
deriving DecidableEq

/-- Embedding of partition_las. The sub-bounds are square_split of the
file header bounds with split factor 2; one in-memory buffer and one
laspy writer per sub-bound, each opened with the original file header;
the chunk loop runs inside try, and the finally block closes every
writer exactly once on the normal and on the error path; on an error the
exception propagates after the finally block, so no payload list is
returned. On success the result is the list
[(file_path, i, buffers[i].getvalue())] over all partitions. The second
component of the result is the final writer list, exposing the close
counts. -/
def partition_las_run (file_path : ℕ) (header : LasHeader)
    (chunks : List (Option (List Point))) :
    Except Err (List (ℕ × ℕ × Payload)) × List Writer :=
  let sub_bounds :=
    square_split_pos header.x_min header.y_min header.x_max header.y_max 2
  let writers := sub_bounds.map (fun _ => openWriter header)
  let r := routeLoop sub_bounds writers chunks
  let closed := r.2.map closeWriter
  match r.1 with
  | some e => (.error e, closed)
  | none =>
    (.ok (closed.enum.map (fun iw => (file_path, iw.1, Payload.mk iw.2.header iw.2.buf))),
     closed)

/-- Raster metadata dictionary: the fields the merge functions read or
update. Fields absent from a rasterio dataset meta (block sizes, tiled)
are modelled as none. -/
structure Meta where
  driver : String
  width : ℕ
  height : ℕ
  affine : ℤ
  blockxsize : Option ℕ
  blockysize : Option ℕ
  tiled : Option Bool
deriving DecidableEq

/-- One opened partition raster: its meta and an opaque pixel array id. -/
structure Tile where
  meta : Meta
  pixels : ℕ
deriving DecidableEq

/-- Interface model of rasterio.merge, an external collaborator kept at
its interface boundary: it hands back a composited mosaic array (opaque
id plus its height and width, read from mosaic.shape) and an output
transform. The compositing algorithm itself is out of scope; only the
hand-off shape is used by the theorems below. -/
def rio_merge (tiles : List Tile) : ℕ × ℕ × ℕ × ℤ :=
  ((tiles.map Tile.pixels).sum,
    (tiles.map (fun t => t.meta.height)).foldl max 0,
    (tiles.map (fun t => t.meta.width)).foldl max 0,
    ((tiles.head?).map (fun t => t.meta.affine)).getD 0)

/-- Embedding of merge_dem_partitions(key, partitions): each partition
DEM is written to a temp file and opened; the tiles are merged; the meta
of the first tile is copied and updated with driver GTiff, blockxsize
256, blockysize 256, tiled True, the mosaic height and width, and the
output transform; the merged DEM is written out and returned as
(file_path, merged bytes), modelled as the output meta paired with the
mosaic id. An empty partition list fails with an unhandled IndexError:
dems[0].meta indexes an empty list (the rasterio merge of an empty
dataset list fails the same way just before). -/
def merge_dem_partitions (key : ℕ) (partitions : List (ℕ × ℕ × Tile)) :
    Except Err (ℕ × Meta × ℕ) :=
  let dems := partitions.map (fun p => p.2.2)
  match dems with
  | [] => .error .indexError
  | d0 :: _ =>
    let m := rio_merge dems
    let dem_output_meta : Meta :=
      { d0.meta with
        driver := "GTiff"
        blockxsize := some 256
        blockysize := some 256
        tiled := some true
        height := m.2.1
        width := m.2.2.1
        affine := m.2.2.2 }
    .ok (key, dem_output_meta, m.1)

/-- Embedding of merge_partitions(key, partitions): per partition one DSM
and one DEM tile are written to temp files and opened; each kind is
merged separately; for each kind the meta of the first tile of that kind
is copied and updated with driver GTiff, the mosaic height and width and
the output transform only - no block or tiling keys are set for either
kind. The result models (file_path, dsm_merged, dem_merged) as the two
(output meta, mosaic id) pairs. An empty partition list fails with an
unhandled IndexError exactly as in merge_dem_partitions. -/
def merge_partitions (key : ℕ) (partitions : List (ℕ × ℕ × Tile × Tile)) :
    Except Err (ℕ × (Meta × ℕ) × (Meta × ℕ)) :=
  let dsms := partitions.map (fun p => p.2.2.1)
  let dems := partitions.map (fun p => p.2.2.2)
  match dsms, dems with
  | s0 :: _, d0 :: _ =>
    let ms := rio_merge dsms
    let md := rio_merge dems
    let dsm_output_meta : Meta :=
      { s0.meta with
        driver := "GTiff"
        height := ms.2.1
        width := ms.2.2.1
        affine := ms.2.2.2 }
    let dem_output_meta : Meta :=
      { d0.meta with
        driver := "GTiff"
        height := md.2.1
        width := md.2.2.1
        affine := md.2.2.2 }
    .ok (key, (dsm_output_meta, ms.1), (dem_output_meta, md.1))
  | _, _ => .error .indexError

/-- os.remove: raises FileNotFoundError when the file is absent,
otherwise removes it from the file-system state (the list of existing
file names). -/
def os_remove (fs : List ℕ) (f : ℕ) : Except Err (List ℕ) :=
  if f ∈ fs then .ok (fs.erase f) else .error .fileNotFoundError

/-- One removal wrapped in try: os.remove(f) except FileNotFoundError:
pass, the guarded pattern used by create_dem, create_models and
merge_dem_partitions. -/
def remove_swallow (fs : List ℕ) (f : ℕ) : List ℕ :=
  match os_remove fs f with
  | .ok fs2 => fs2
  | .error _ => fs

/-- The finally block of create_dem: the laz and dem temp files are
removed, each removal guarded against FileNotFoundError. -/
def create_dem_cleanup (fs : List ℕ) (laz dem : ℕ) : Except Err (List ℕ) :=
  .ok (remove_swallow (remove_swallow fs laz) dem)

/-- The finally block of create_models: the laz, dsm and dem temp files
are removed, each removal guarded against FileNotFoundError. -/
def create_models_cleanup (fs : List ℕ) (laz dsm dem : ℕ) :
    Except Err (List ℕ) :=
  .ok (remove_swallow (remove_swallow (remove_swallow fs laz) dsm) dem)

/-- The cleanup of merge_dem_partitions: the merged file and every part
file are removed, each removal guarded against FileNotFoundError. -/
def merge_dem_partitions_cleanup (fs : List ℕ) (merged : ℕ) (parts : List ℕ) :
    Except Err (List ℕ) :=
  .ok (parts.foldl remove_swallow (remove_swallow fs merged))

/-- The cleanup of merge_partitions: bare os.remove calls with no
try/except, in source order: the merged dsm file, the merged dem file,
every dsm part file, every dem part file. A missing file raises
FileNotFoundError out of the function. -/
def merge_partitions_cleanup (fs : List ℕ) (dsm_merged dem_merged : ℕ)
    (dsm_parts dem_parts : List ℕ) : Except Err (List ℕ) := do
  let fs1 ← os_remove fs dsm_merged
  let fs2 ← os_remove fs1 dem_merged
  let fs3 ← dsm_parts.foldlM os_remove fs2
  dem_parts.foldlM os_remove fs3

/-- C1: the claim states that the per-chunk early stop of partition_las
never changes the routed output. It does: for the chunk consisting of the
single point (50, 50), lying on the shared corner of all four cells of
square_split(0, 0, 100, 100, 2), the early-stop routing writes the point
only to partition 0 (point_piped reaches the chunk length 1 after the
first cell and the loop breaks), while evaluating every mask with no
early stop writes it to all four partitions. -/
theorem early_stop_changes_output :
    chunkWrites [⟨50, 50, 0⟩] (square_split_pos 0 0 100 100 2) 0 =
      [[⟨50, 50, 0⟩], [], [], []] ∧
    chunkWritesFull [⟨50, 50, 0⟩] (square_split_pos 0 0 100 100 2) =
      [[⟨50, 50, 0⟩], [⟨50, 50, 0⟩], [⟨50, 50, 0⟩], [⟨50, 50, 0⟩]] ∧
    chunkWrites [⟨50, 50, 0⟩] (square_split_pos 0 0 100 100 2) 0 ≠
      chunkWritesFull [⟨50, 50, 0⟩] (square_split_pos 0 0 100 100 2) := by
  refine ⟨?_, ?_, ?_⟩ <;>
    norm_num [square_split_pos, squareCell, List.range_succ, chunkWrites,
      chunkWritesFull, inBounds, List.filter]

/-- C2: the four cells of square_split(0, 0, 100, 100, 2) are
(0,0,50,50), (0,50,50,100), (50,0,100,50), (50,50,100,100) in that
order, and a chunk holding only the interior point (25, 25) is routed
only to the first partition payload - both as the claim states. But the
corner point (50, 50) is not written to all four payloads: routed as a
chunk it ends up only in partition 0, because point_piped equals the
chunk length after the first cell and the partition loop breaks. -/
theorem partition_las_corner_point :
    square_split_pos 0 0 100 100 2 =
      [⟨0, 0, 50, 50⟩, ⟨0, 50, 50, 100⟩, ⟨50, 0, 100, 50⟩, ⟨50, 50, 100, 100⟩] ∧
    (partition_las_run 3 ⟨0, 0, 100, 100, 1⟩ [some [⟨25, 25, 7⟩]]).1 =
      Except.ok [(3, 0, ⟨⟨0, 0, 100, 100, 1⟩, [⟨25, 25, 7⟩]⟩),
                 (3, 1, ⟨⟨0, 0, 100, 100, 1⟩, []⟩),
                 (3, 2, ⟨⟨0, 0, 100, 100, 1⟩, []⟩),
                 (3, 3, ⟨⟨0, 0, 100, 100, 1⟩, []⟩)] ∧
    (partition_las_run 3 ⟨0, 0, 100, 100, 1⟩ [some [⟨50, 50, 7⟩]]).1 =
      Except.ok [(3, 0, ⟨⟨0, 0, 100, 100, 1⟩, [⟨50, 50, 7⟩]⟩),
                 (3, 1, ⟨⟨0, 0, 100, 100, 1⟩, []⟩),
                 (3, 2, ⟨⟨0, 0, 100, 100, 1⟩, []⟩),
                 (3, 3, ⟨⟨0, 0, 100, 100, 1⟩, []⟩)] := by
  refine ⟨?_, ?_, ?_⟩ <;>
    norm_num [partition_las_run, routeLoop, applyChunk, chunkWrites, inBounds,
      square_split_pos, squareCell, List.range_succ, List.filter, openWriter,
      closeWriter, List.enum, List.enumFrom]

/-- C5 counterexample: square_split with the nonpositive split factor -1
does not fail with InvalidArgument - it returns an empty cell sequence
without raising. -/
theorem square_split_neg_no_invalid_argument :
    square_split 0 0 100 100 (-1) = Except.ok [] ∧
    square_split 0 0 100 100 (-1) ≠ Except.error Err.invalidArgument ∧
    square_split 0 0 100 100 0 ≠ Except.error Err.invalidArgument := by
  have h1 : square_split 0 0 100 100 (-1) = Except.ok [] := by
    norm_num [square_split, square_split_pos]
  have h2 : square_split 0 0 100 100 0 = Except.error Err.zeroDivisionError := rfl
  refine ⟨h1, ?_, ?_⟩
  · rw [h1]
    exact fun h => Except.noConfusion h
  · rw [h2]
    exact fun h => Err.noConfusion (Except.error.inj h)

/-- C5 amended: the source has no InvalidArgument validation. A split
factor of 0 fails with ZeroDivisionError, raised by the initial division
computing x_size; a negative split factor raises nothing and returns an
empty cell sequence, since range(square_splits) is empty. -/
theorem square_split_nonpositive (x_min y_min x_max y_max : ℚ)
    (square_splits : ℤ) :
    (square_splits = 0 →
      square_split x_min y_min x_max y_max square_splits =
        Except.error Err.zeroDivisionError) ∧
    (square_splits < 0 →
      square_split x_min y_min x_max y_max square_splits = Except.ok []) := by
  constructor
  · intro h
    simp [square_split, h]
  · intro h
    have h0 : square_splits ≠ 0 := by omega
    have ht : square_splits.toNat = 0 := by omega
    simp [square_split, h0, ht, square_split_pos]

/-- Witness for square_split_nonpositive at the split factors 0 and -3. -/
theorem square_split_nonpositive_witness :
    square_split 0 0 100 100 0 = Except.error Err.zeroDivisionError ∧
    square_split 0 0 100 100 (-3) = Except.ok [] :=
  ⟨(square_split_nonpositive 0 0 100 100 0).1 rfl,
   (square_split_nonpositive 0 0 100 100 (-3)).2 (by norm_num)⟩

/-- C6 counterexample: neither merge function fails with a dedicated
EmptyPartitionSet error on an empty partition sequence. -/
theorem merge_empty_not_empty_partition_set :
    merge_dem_partitions 0 [] ≠ Except.error Err.emptyPartitionSet ∧
    merge_partitions 0 [] ≠ Except.error Err.emptyPartitionSet := by
  constructor <;>
    exact fun h => Err.noConfusion (Except.error.inj h)

/-- C6 amended: on an empty partition sequence both merge functions fail,
but with an unhandled IndexError from taking the first element of the
empty tile list (dems[0].meta, and the rasterio merge of an empty dataset
list just before it), not with a dedicated EmptyPartitionSet error. -/
theorem merge_empty_index_error (key : ℕ) :
    merge_dem_partitions key [] = Except.error Err.indexError ∧
    merge_partitions key [] = Except.error Err.indexError := by
  constructor <;> rfl

/-- C8 counterexample: merge_partitions does not apply the 256x256
tiling hints to its terrain-model output. Merging one partition whose
tiles carry no block or tiling metadata yields a terrain-model (DEM)
mosaic meta whose blockxsize, blockysize and tiled fields are still all
unset, not (256, 256, tiled). -/
theorem merge_partitions_no_tiling :
    Except.map (fun r => ((r.2.2.1).blockxsize, (r.2.2.1).blockysize, (r.2.2.1).tiled))
      (merge_partitions 0 [(0, 0, ⟨⟨"GTiff", 10, 10, 0, none, none, none⟩, 5⟩,
                                   ⟨⟨"GTiff", 10, 10, 0, none, none, none⟩, 5⟩)]) =
      Except.ok (none, none, none) ∧
    Except.ok (none, none, none) ≠
      (Except.ok (some 256, some 256, some true) :
        Except Err (Option ℕ × Option ℕ × Option Bool)) := by
  constructor
  · rfl
  · intro h
    simpa using Except.ok.inj h

/-- C8 amended: only merge_dem_partitions applies the fixed 256x256
block-tiling storage metadata, and it applies it to its terrain-model
mosaic; merge_partitions updates only driver, height, width and
transform for both of its outputs, leaving the block and tiling fields
of the surface-model and of the terrain-model mosaic exactly as they
were in the first input tile of that kind; no surface-model mosaic
receives tiling hints. -/
theorem tiling_hints_only_merge_dem (key : ℕ) (p : ℕ × ℕ × Tile)
    (ps : List (ℕ × ℕ × Tile)) (q : ℕ × ℕ × Tile × Tile)
    (qs : List (ℕ × ℕ × Tile × Tile)) :
    (∃ m pix, merge_dem_partitions key (p :: ps) = Except.ok (key, m, pix) ∧
      m.blockxsize = some 256 ∧ m.blockysize = some 256 ∧ m.tiled = some true) ∧
    (∃ ms md pixs pixd,
      merge_partitions key (q :: qs) = Except.ok (key, (ms, pixs), (md, pixd)) ∧
      ms.blockxsize = q.2.2.1.meta.blockxsize ∧
      ms.blockysize = q.2.2.1.meta.blockysize ∧
      ms.tiled = q.2.2.1.meta.tiled ∧
      md.blockxsize = q.2.2.2.meta.blockxsize ∧
      md.blockysize = q.2.2.2.meta.blockysize ∧
      md.tiled = q.2.2.2.meta.tiled) := by
  constructor
  · exact ⟨_, _, rfl, rfl, rfl, rfl⟩
  · exact ⟨_, _, _, _, rfl, rfl, rfl, rfl, rfl, rfl, rfl⟩

/-- C9 counterexample: the cleanup of merge_partitions does not swallow
a missing-file removal failure. With the merged DSM temp file already
absent from the file system, the bare os.remove raises
FileNotFoundError, which propagates to the caller. -/
theorem merge_partitions_cleanup_raises :
    merge_partitions_cleanup [] 0 1 [] [] =
      Except.error Err.fileNotFoundError := by
  rfl

/-- C9 amended: the temporary-file cleanups of create_dem, create_models
and merge_dem_partitions wrap each removal in try/except FileNotFoundError
and never propagate a missing-file failure, in any file-system state
(hence on every exit path on which they run); the cleanup of
merge_partitions instead performs bare removals, and a missing file
there raises FileNotFoundError to the caller. -/
theorem cleanup_swallow_discipline (fs : List ℕ) (laz dsm dem merged a b : ℕ)
    (parts dsm_parts dem_parts : List ℕ) (ha : a ∉ fs) :
    (∀ e, create_dem_cleanup fs laz dem ≠ Except.error e) ∧
    (∀ e, create_models_cleanup fs laz dsm dem ≠ Except.error e) ∧
    (∀ e, merge_dem_partitions_cleanup fs merged parts ≠ Except.error e) ∧
    merge_partitions_cleanup fs a b dsm_parts dem_parts =
      Except.error Err.fileNotFoundError := by
  refine ⟨?_, ?_, ?_, ?_⟩
  · intro e h
    exact Except.noConfusion h
  · intro e h
    exact Except.noConfusion h
  · intro e h
    exact Except.noConfusion h
  · simp [merge_partitions_cleanup, os_remove, ha, Bind.bind, Except.bind]

/-- Witness for cleanup_swallow_discipline in the empty file-system
state, where file 0 is absent. -/
theorem cleanup_swallow_discipline_witness :
    create_dem_cleanup [] 1 2 ≠ Except.error Err.fileNotFoundError ∧
    merge_partitions_cleanup [] 0 1 [] [] =
      Except.error Err.fileNotFoundError :=
  ⟨(cleanup_swallow_discipline [] 1 2 3 4 0 5 [] [] [] (by simp)).1
      Err.fileNotFoundError,
   (cleanup_swallow_discipline [] 1 2 3 4 0 5 [] [] [] (by simp)).2.2.2⟩

/-- Length of a flatMap over a range whose blocks all have length m. -/
theorem length_flatMap_range {α : Type} (f : ℕ → List α) (m : ℕ)
    (hf : ∀ i, (f i).length = m) (n : ℕ) :
    ((List.range n).flatMap f).length = n * m := by
  induction n with
  | zero => simp
  | succ k ih =>
    rw [List.range_succ, List.flatMap_append, List.length_append, ih]
    simp [hf, Nat.succ_mul]

/-- Row-major indexing into a flatMap over a range whose blocks all have
length m: position i * m + j falls in block i at offset j. -/
theorem getElem?_flatMap_range {α : Type} (f : ℕ → List α) (m : ℕ)
    (hf : ∀ i, (f i).length = m) :
    ∀ n i j : ℕ, i < n → j < m →
      ((List.range n).flatMap f)[i * m + j]? = (f i)[j]? := by
  intro n
  induction n with
  | zero => exact fun i j hi _ => absurd hi (Nat.not_lt_zero i)
  | succ k ih =>
    intro i j hi hj
    rw [List.range_succ, List.flatMap_append, List.getElem?_append,
      length_flatMap_range f m hf k]
    rcases Nat.lt_or_ge i k with hik | hik
    · have h1 : i * m + j < k * m := by
        have h2 : i * m + j < (i + 1) * m := by
          rw [Nat.succ_mul]
          omega
        exact lt_of_lt_of_le h2 (Nat.mul_le_mul_right m hik)
      rw [if_pos h1]
      exact ih i j hik hj
    · have hik2 : i = k := by omega
      subst hik2
      rw [if_neg (by omega)]
      have h3 : i * m + j - i * m = j := by omega
      rw [h3]
      simp

/-- C3: for every bounding box with x_min < x_max and y_min < y_max and
every positive split factor n, square_split succeeds and returns exactly
n * n cells in row-major order over (i, j): the cell at position
i * n + j spans [x_min + i * dx, x_min + (i + 1) * dx] by
[y_min + j * dy, y_min + (j + 1) * dy] with dx = (x_max - x_min) / n and
dy = (y_max - y_min) / n. -/
theorem square_split_rowmajor (x_min y_min x_max y_max : ℚ) (n : ℕ)
    (hx : x_min < x_max) (hy : y_min < y_max) (hn : 0 < n) :
    square_split x_min y_min x_max y_max (n : ℤ) =
      Except.ok (square_split_pos x_min y_min x_max y_max n) ∧
    (square_split_pos x_min y_min x_max y_max n).length = n * n ∧
    ∀ i j : ℕ, i < n → j < n →
      (square_split_pos x_min y_min x_max y_max n)[i * n + j]? =
        some { x_min := x_min + (i : ℚ) * ((x_max - x_min) / n),
               y_min := y_min + (j : ℚ) * ((y_max - y_min) / n),
               x_max := x_min + ((i : ℚ) + 1) * ((x_max - x_min) / n),
               y_max := y_min + ((j : ℚ) + 1) * ((y_max - y_min) / n) } := by
  have hfl : ∀ i,
      ((List.range n).map
        (fun j => squareCell x_min y_min x_max y_max n i j)).length = n := by
    intro i
    simp
  refine ⟨?_, ?_, ?_⟩
  · have h0 : ¬((n : ℤ) = 0) := by exact_mod_cast hn.ne.symm
    simp [square_split, h0]
  · exact length_flatMap_range _ n hfl n
  · intro i j hi hj
    rw [square_split_pos, getElem?_flatMap_range _ n hfl n i j hi hj,
      List.getElem?_map, List.getElem?_range hj]
    simp only [Option.map_some']
    congr 1
    simp only [squareCell, BBox.mk.injEq]
    refine ⟨by ring, by ring, by ring, by ring⟩

/-- Witness for square_split_rowmajor on the box (0,0,100,100) with
split factor 2. -/
theorem square_split_rowmajor_witness :
    square_split 0 0 100 100 (2 : ℤ) =
      Except.ok (square_split_pos 0 0 100 100 2) ∧
    (square_split_pos 0 0 100 100 2).length = 2 * 2 :=
  ⟨(square_split_rowmajor 0 0 100 100 2 (by norm_num) (by norm_num)
      (by norm_num)).1,
   (square_split_rowmajor 0 0 100 100 2 (by norm_num) (by norm_num)
      (by norm_num)).2.1⟩

/-- The four conjuncts of the partition_las membership mask, as an iff. -/
theorem inBounds_iff {b : BBox} {p : Point} :
    inBounds b p = true ↔
      b.x_min ≤ p.x ∧ p.x ≤ b.x_max ∧ b.y_min ≤ p.y ∧ p.y ≤ b.y_max := by
  simp [inBounds, and_assoc]

/-- Membership in the square_split output list, as grid coordinates. -/
theorem mem_square_split_pos {x_min y_min x_max y_max : ℚ} {n : ℕ} {b : BBox} :
    b ∈ square_split_pos x_min y_min x_max y_max n ↔
      ∃ i, i < n ∧ ∃ j, j < n ∧ b = squareCell x_min y_min x_max y_max n i j := by
  simp only [square_split_pos, List.mem_flatMap, List.mem_map, List.mem_range]
  constructor
  · rintro ⟨i, hi, j, hj, rfl⟩
    exact ⟨i, hi, j, hj, rfl⟩
  · rintro ⟨i, hi, j, hj, rfl⟩
    exact ⟨i, hi, j, hj, rfl⟩

/-- Every point of [a, b] lies in one of the n closed subintervals of
width (b - a) / n. -/
theorem interval_cover (a b : ℚ) (n : ℕ) (hn : 0 < n) (hab : a < b)
    (t : ℚ) (h1 : a ≤ t) (h2 : t ≤ b) :
    ∃ i : ℕ, i < n ∧
      (b - a) / n * i + a ≤ t ∧ t ≤ (b - a) / n * i + a + (b - a) / n := by
  have hnQ : (0 : ℚ) < n := by exact_mod_cast hn
  set d : ℚ := (b - a) / n with hd
  have hdpos : (0 : ℚ) < d := div_pos (by linarith) hnQ
  have hnd : (n : ℚ) * d = b - a := by
    rw [hd]
    field_simp
  set k : ℤ := ⌊(t - a) / d⌋ with hk
  have hk0 : 0 ≤ k := Int.floor_nonneg.2 (div_nonneg (by linarith) hdpos.le)
  have hkle : (k : ℚ) ≤ (t - a) / d := Int.floor_le _
  have hklt : (t - a) / d < (k : ℚ) + 1 := Int.lt_floor_add_one _
  by_cases hkn : k < n
  · refine ⟨k.toNat, ?_, ?_, ?_⟩
    · have := Int.toNat_of_nonneg hk0
      omega
    · have hmul : (k : ℚ) * d ≤ t - a := (le_div_iff₀ hdpos).1 hkle
      have hcast : ((k.toNat : ℕ) : ℚ) = (k : ℚ) := by
        exact_mod_cast Int.toNat_of_nonneg hk0
      rw [hcast]
      linarith
    · have hmul : t - a < ((k : ℚ) + 1) * d := (div_lt_iff₀ hdpos).1 hklt
      have hcast : ((k.toNat : ℕ) : ℚ) = (k : ℚ) := by
        exact_mod_cast Int.toNat_of_nonneg hk0
      rw [hcast]
      nlinarith
  · have hge : ((n : ℤ) : ℚ) ≤ (k : ℚ) := by exact_mod_cast not_lt.1 hkn
    have hge2 : (n : ℚ) ≤ (t - a) / d := by
      push_cast at hge
      linarith
    have hba : b - a ≤ t - a := by
      have := (le_div_iff₀ hdpos).1 hge2
      linarith [hnd]
    have ht : t = b := le_antisymm h2 (by linarith)
    have hcast : ((n - 1 : ℕ) : ℚ) = (n : ℚ) - 1 := by
      rw [Nat.cast_sub hn]
      norm_num
    refine ⟨n - 1, by omega, ?_, ?_⟩
    · rw [hcast, ht]
      have hexp : d * ((n : ℚ) - 1) = (n : ℚ) * d - d := by ring
      linarith
    · rw [hcast, ht]
      have hexp : d * ((n : ℚ) - 1) = (n : ℚ) * d - d := by ring
      linarith

/-- C4: for every bounding box with x_min < x_max and y_min < y_max and
every positive split factor n, the cells of square_split cover exactly
the input box: every cell is contained in the box (under the closed
membership mask of partition_las) and every point of the box lies in
some cell; and for n = 1 the single returned cell is exactly the input
box. -/
theorem square_split_union (x_min y_min x_max y_max : ℚ) (n : ℕ)
    (hx : x_min < x_max) (hy : y_min < y_max) (hn : 0 < n) :
    (∀ b ∈ square_split_pos x_min y_min x_max y_max n, ∀ p : Point,
      inBounds b p = true → inBounds ⟨x_min, y_min, x_max, y_max⟩ p = true) ∧
    (∀ p : Point, inBounds ⟨x_min, y_min, x_max, y_max⟩ p = true →
      ∃ b ∈ square_split_pos x_min y_min x_max y_max n, inBounds b p = true) ∧
    (n = 1 →
      square_split_pos x_min y_min x_max y_max n =
        [⟨x_min, y_min, x_max, y_max⟩]) := by
  have hnQ : (0 : ℚ) < n := by exact_mod_cast hn
  have hdx : (0 : ℚ) < (x_max - x_min) / n := div_pos (by linarith) hnQ
  have hdy : (0 : ℚ) < (y_max - y_min) / n := div_pos (by linarith) hnQ
  have hxtot : x_min + (n : ℚ) * ((x_max - x_min) / n) = x_max := by
    field_simp
  have hytot : y_min + (n : ℚ) * ((y_max - y_min) / n) = y_max := by
    field_simp
  refine ⟨?_, ?_, ?_⟩
  · intro b hb p hp
    rcases mem_square_split_pos.1 hb with ⟨i, hi, j, hj, rfl⟩
    rw [inBounds_iff] at hp
    simp only [squareCell] at hp
    rw [inBounds_iff]
    have hi1 : ((i : ℚ) + 1) ≤ n := by exact_mod_cast hi
    have hj1 : ((j : ℚ) + 1) ≤ n := by exact_mod_cast hj
    have hxi : (x_max - x_min) / n * (i : ℚ) ≥ 0 :=
      mul_nonneg hdx.le (Nat.cast_nonneg i)
    have hyj : (y_max - y_min) / n * (j : ℚ) ≥ 0 :=
      mul_nonneg hdy.le (Nat.cast_nonneg j)
    have hxi2 : (x_max - x_min) / n * ((i : ℚ) + 1) ≤ (x_max - x_min) / n * n :=
      mul_le_mul_of_nonneg_left hi1 hdx.le
    have hyj2 : (y_max - y_min) / n * ((j : ℚ) + 1) ≤ (y_max - y_min) / n * n :=
      mul_le_mul_of_nonneg_left hj1 hdy.le
    refine ⟨by linarith, ?_, by linarith, ?_⟩
    · have := hp.2.1
      nlinarith [hxtot]
    · have := hp.2.2.2
      nlinarith [hytot]
  · intro p hp
    rw [inBounds_iff] at hp
    obtain ⟨i, hi, hxl, hxu⟩ :=
      interval_cover x_min x_max n hn hx p.x hp.1 hp.2.1
    obtain ⟨j, hj, hyl, hyu⟩ :=
      interval_cover y_min y_max n hn hy p.y hp.2.2.1 hp.2.2.2
    refine ⟨squareCell x_min y_min x_max y_max n i j,
      mem_square_split_pos.2 ⟨i, hi, j, hj, rfl⟩, ?_⟩
    rw [inBounds_iff]
    simp only [squareCell]
    exact ⟨hxl, hxu, hyl, hyu⟩
  · intro h1
    subst h1
    have hrange : List.range 1 = [0] := rfl
    have hcell : squareCell x_min y_min x_max y_max 1 0 0 =
        ⟨x_min, y_min, x_max, y_max⟩ := by
      simp only [squareCell, BBox.mk.injEq, Nat.cast_one, Nat.cast_zero]
      norm_num
    rw [square_split_pos, hrange]
    simp only [List.flatMap_cons, List.flatMap_nil, List.map_cons,
      List.map_nil, List.append_nil, hcell]

/-- Witness for square_split_union at the unit box with n = 1. -/
theorem square_split_union_witness :
    square_split_pos 0 0 1 1 1 = [⟨0, 0, 1, 1⟩] :=
  (square_split_union 0 0 1 1 1 (by norm_num) (by norm_num) (by norm_num)).2.2 rfl

/-- Every element of a zipWith comes from an element of the left list. -/
theorem zipWith_mem {α β γ : Type} {f : α → β → γ} {c : γ} :
    ∀ (l₁ : List α) (l₂ : List β), c ∈ List.zipWith f l₁ l₂ →
      ∃ a ∈ l₁, ∃ b, c = f a b := by
  intro l₁
  induction l₁ with
  | nil =>
    intro l₂ h
    simp at h
  | cons a l ih =>
    intro l₂ h
    cases l₂ with
    | nil => simp at h
    | cons b l₂ =>
      simp only [List.zipWith_cons_cons, List.mem_cons] at h
      rcases h with h | h
      · exact ⟨a, List.mem_cons_self _ _, b, h⟩
      · rcases ih l₂ h with ⟨a2, ha2, b2, hb2⟩
        exact ⟨a2, List.mem_cons_of_mem _ ha2, b2, hb2⟩

/-- One chunk iteration only appends to writer buffers: it preserves
each writer header and close count. -/
theorem applyChunk_inv {bounds : List BBox} {ws : List Writer}
    {c : List Point} {hdr : LasHeader}
    (h : ∀ w ∈ ws, w.header = hdr ∧ w.closes = 0) :
    ∀ w ∈ applyChunk bounds ws c, w.header = hdr ∧ w.closes = 0 := by
  intro w hw
  rcases zipWith_mem _ _ hw with ⟨w0, hw0, sub, rfl⟩
  exact h w0 hw0

/-- The routing loop never closes a writer and never changes a header,
on the normal and on the aborted path. -/
theorem routeLoop_inv {bounds : List BBox} {hdr : LasHeader} :
    ∀ (chunks : List (Option (List Point))) (ws : List Writer),
      (∀ w ∈ ws, w.header = hdr ∧ w.closes = 0) →
      ∀ w ∈ (routeLoop bounds ws chunks).2, w.header = hdr ∧ w.closes = 0 := by
  intro chunks
  induction chunks with
  | nil =>
    intro ws h
    simpa [routeLoop] using h
  | cons c rest ih =>
    intro ws h
    cases c with
    | none => simpa [routeLoop] using h
    | some pts =>
      simp only [routeLoop]
      exact ih _ (applyChunk_inv h)

/-- A malformed chunk anywhere in the stream aborts the routing loop
with SourceReadError. -/
theorem routeLoop_err {bounds : List BBox} :
    ∀ (chunks : List (Option (List Point))) (ws : List Writer),
      none ∈ chunks →
      (routeLoop bounds ws chunks).1 = some Err.sourceReadError := by
  intro chunks
  induction chunks with
  | nil =>
    intro ws h
    simp at h
  | cons c rest ih =>
    intro ws h
    cases c with
    | none => simp [routeLoop]
    | some pts =>
      have h2 : none ∈ rest := by simpa using h
      simp only [routeLoop]
      exact ih _ h2

/-- The per-chunk writes list is parallel to the partition list, break
or no break. -/
theorem chunkWrites_length (points : List Point) :
    ∀ (bounds : List BBox) (piped : ℕ),
      (chunkWrites points bounds piped).length = bounds.length := by
  intro bounds
  induction bounds with
  | nil =>
    intro piped
    rfl
  | cons b rest ih =>
    intro piped
    simp only [chunkWrites]
    split
    · simp
    · simp [ih]

/-- The routing loop preserves the number of writers. -/
theorem routeLoop_length {bounds : List BBox} :
    ∀ (chunks : List (Option (List Point))) (ws : List Writer),
      ws.length = bounds.length →
      (routeLoop bounds ws chunks).2.length = bounds.length := by
  intro chunks
  induction chunks with
  | nil =>
    intro ws h
    simpa [routeLoop] using h
  | cons c rest ih =>
    intro ws h
    cases c with
    | none => simpa [routeLoop] using h
    | some pts =>
      simp only [routeLoop]
      exact ih _ (by simp [applyChunk, chunkWrites_length, h])

/-- On either exit of partition_las, the final writer list is the
routing-loop writers, each passed once through close() by the finally
block. -/
theorem partition_las_run_snd (fp : ℕ) (h : LasHeader)
    (chunks : List (Option (List Point))) :
    (partition_las_run fp h chunks).2 =
      ((routeLoop (square_split_pos h.x_min h.y_min h.x_max h.y_max 2)
          ((square_split_pos h.x_min h.y_min h.x_max h.y_max 2).map
            (fun _ => openWriter h)) chunks).2).map closeWriter := by
  simp only [partition_las_run]
  cases (routeLoop (square_split_pos h.x_min h.y_min h.x_max h.y_max 2)
      ((square_split_pos h.x_min h.y_min h.x_max h.y_max 2).map
        (fun _ => openWriter h)) chunks).1 <;> rfl

/-- C7: on every exit path of partition_las - normal completion or an
error raised partway through routing - every created partition payload
writer ends with close count exactly one (the finally block closes each
writer once, and the routing loop itself never closes); and when the
routing loop raises, the function propagates SourceReadError and returns
no payload list. -/
theorem partition_las_writer_discipline (fp : ℕ) (header : LasHeader)
    (chunks : List (Option (List Point))) :
    (∀ w ∈ (partition_las_run fp header chunks).2, w.closes = 1) ∧
    (none ∈ chunks →
      (partition_las_run fp header chunks).1 =
        Except.error Err.sourceReadError) := by
  have hinv : ∀ w ∈ (routeLoop (square_split_pos header.x_min header.y_min
      header.x_max header.y_max 2)
      ((square_split_pos header.x_min header.y_min header.x_max
        header.y_max 2).map (fun _ => openWriter header)) chunks).2,
      w.header = header ∧ w.closes = 0 := by
    apply routeLoop_inv
    intro w hw
    rcases List.mem_map.1 hw with ⟨b, _, rfl⟩
    exact ⟨rfl, rfl⟩
  constructor
  · intro w hw
    rw [partition_las_run_snd] at hw
    rcases List.mem_map.1 hw with ⟨w0, hw0, rfl⟩
    simp [closeWriter, (hinv w0 hw0).2]
  · intro hnone
    have he := @routeLoop_err (square_split_pos header.x_min
      header.y_min header.x_max header.y_max 2) chunks
      ((square_split_pos header.x_min header.y_min header.x_max
        header.y_max 2).map (fun _ => openWriter header)) hnone
    simp only [partition_las_run, he]

/-- Witness for partition_las_writer_discipline on a stream whose first
chunk read fails. -/
theorem partition_las_writer_discipline_witness :
    (∀ w ∈ (partition_las_run 0 ⟨0, 0, 100, 100, 1⟩ [none]).2, w.closes = 1) ∧
    (partition_las_run 0 ⟨0, 0, 100, 100, 1⟩ [none]).1 =
      Except.error Err.sourceReadError :=
  ⟨(partition_las_writer_discipline 0 ⟨0, 0, 100, 100, 1⟩ [none]).1,
   (partition_las_writer_discipline 0 ⟨0, 0, 100, 100, 1⟩ [none]).2
     (List.mem_singleton.2 rfl)⟩

/-- C10: every payload returned by partition_las was written through a
writer opened with the original source file header, so each of the four
returned payloads - including those that received zero points - carries
the whole-file header (with its file-wide bounds), not a header
restricted to the partition sub-bounds. -/
theorem partition_las_payload_header (fp : ℕ) (header : LasHeader)
    (chunks : List (Option (List Point))) (pl : List (ℕ × ℕ × Payload))
    (hok : (partition_las_run fp header chunks).1 = Except.ok pl) :
    pl.length = 4 ∧ ∀ x ∈ pl, x.2.2.header = header := by
  have hinv : ∀ w ∈ (routeLoop (square_split_pos header.x_min header.y_min
      header.x_max header.y_max 2)
      ((square_split_pos header.x_min header.y_min header.x_max
        header.y_max 2).map (fun _ => openWriter header)) chunks).2,
      w.header = header ∧ w.closes = 0 := by
    apply routeLoop_inv
    intro w hw
    rcases List.mem_map.1 hw with ⟨b, _, rfl⟩
    exact ⟨rfl, rfl⟩
  have hblen : (square_split_pos header.x_min header.y_min header.x_max
      header.y_max 2).length = 4 := by
    have := length_flatMap_range
      (fun i => (List.range 2).map
        (fun j => squareCell header.x_min header.y_min header.x_max
          header.y_max 2 i j)) 2 (fun i => by simp) 2
    simpa [square_split_pos] using this
  have hlen : (routeLoop (square_split_pos header.x_min header.y_min
      header.x_max header.y_max 2)
      ((square_split_pos header.x_min header.y_min header.x_max
        header.y_max 2).map (fun _ => openWriter header)) chunks).2.length = 4 := by
    rw [routeLoop_length chunks _ (by simp)]
    exact hblen
  have hpl : pl = (((routeLoop (square_split_pos header.x_min header.y_min
      header.x_max header.y_max 2)
      ((square_split_pos header.x_min header.y_min header.x_max
        header.y_max 2).map (fun _ => openWriter header)) chunks).2.map
        closeWriter).enum).map
      (fun iw => (fp, iw.1, Payload.mk iw.2.header iw.2.buf)) := by
    simp only [partition_las_run] at hok
    cases hE : (routeLoop (square_split_pos header.x_min header.y_min
        header.x_max header.y_max 2)
        ((square_split_pos header.x_min header.y_min header.x_max
          header.y_max 2).map (fun _ => openWriter header)) chunks).1 with
    | none =>
      simp only [hE] at hok
      exact (Except.ok.inj hok).symm
    | some e =>
      simp only [hE] at hok
      exact absurd hok (by simp)
  constructor
  · rw [hpl]
    simp only [List.length_map, List.enum_length]
    exact hlen
  · intro x hx
    rw [hpl] at hx
    rcases List.mem_map.1 hx with ⟨iw, hiw, rfl⟩
    have h2 : iw.2 ∈ (routeLoop (square_split_pos header.x_min header.y_min
        header.x_max header.y_max 2)
        ((square_split_pos header.x_min header.y_min header.x_max
          header.y_max 2).map (fun _ => openWriter header)) chunks).2.map
        closeWriter := by
      have := List.mem_enum_iff_getElem?.1 hiw
      exact List.getElem?_mem this
    rcases List.mem_map.1 h2 with ⟨w0, hw0, heq⟩
    have hh : w0.header = header := (hinv w0 hw0).1
    simp only [← heq, closeWriter]
    exact hh

/-- Witness for partition_las_payload_header on an empty chunk stream:
all four payloads are returned, each with the source header. -/
theorem partition_las_payload_header_witness :
    ([(0, 0, (⟨⟨0, 0, 100, 100, 1⟩, []⟩ : Payload)),
      (0, 1, ⟨⟨0, 0, 100, 100, 1⟩, []⟩),
      (0, 2, ⟨⟨0, 0, 100, 100, 1⟩, []⟩),
      (0, 3, ⟨⟨0, 0, 100, 100, 1⟩, []⟩)] :
        List (ℕ × ℕ × Payload)).length = 4 :=
  (partition_las_payload_header 0 ⟨0, 0, 100, 100, 1⟩ [] _
    (by norm_num [partition_las_run, routeLoop, square_split_pos, squareCell,
      List.range_succ, openWriter, closeWriter, List.enum, List.enumFrom])).1

/-- Witness for merge_empty_index_error at key 7. -/
theorem merge_empty_index_error_witness :
    merge_dem_partitions 7 [] = Except.error Err.indexError ∧
    merge_partitions 7 [] = Except.error Err.indexError :=
  merge_empty_index_error 7

/-- Witness for tiling_hints_only_merge_dem on concrete single-tile
inputs. -/
theorem tiling_hints_only_merge_dem_witness :
    (∃ m pix, merge_dem_partitions 1
        [(1, 0, ⟨⟨"GTiff", 8, 9, 2, none, none, none⟩, 3⟩)] =
          Except.ok (1, m, pix) ∧
      m.blockxsize = some 256 ∧ m.blockysize = some 256 ∧
      m.tiled = some true) ∧
    (∃ ms md pixs pixd, merge_partitions 1
        [(1, 0, ⟨⟨"GTiff", 8, 9, 2, none, none, none⟩, 3⟩,
                ⟨⟨"GTiff", 8, 9, 2, none, none, none⟩, 3⟩)] =
          Except.ok (1, (ms, pixs), (md, pixd)) ∧
      ms.blockxsize = none ∧ ms.blockysize = none ∧ ms.tiled = none ∧
      md.blockxsize = none ∧ md.blockysize = none ∧ md.tiled = none) :=
  tiling_hints_only_merge_dem 1
    (1, 0, ⟨⟨"GTiff", 8, 9, 2, none, none, none⟩, 3⟩) []
    (1, 0, ⟨⟨"GTiff", 8, 9, 2, none, none, none⟩, 3⟩,
           ⟨⟨"GTiff", 8, 9, 2, none, none, none⟩, 3⟩) []

end Lpc
